import Mathlib

/-!
# Verification of the convertify document-conversion engine

Shallow embedding of `converter.py` (the DOCX→Markdown and PDF→Markdown
readers, the Markdown writer, and the extension-keyed registry/orchestrator)
together with theorems settling the specification claims.

Conventions:
* Python `float` coordinates and font sizes are modelled as `ℚ`; the claims
  under scrutiny concern comparison logic at exactly representable values.
* Python `dict` is modelled as an insertion-ordered association list whose
  insert overwrites an existing key in place.
* Python exceptions are modelled with `Except`; the two observable kinds of
  exception relevant here are errors raised by the external parsing layer
  and fresh `Exception(...)` values raised by reader code itself.
-/

namespace Convertify

/-! ## String primitives

The Lean standard-library string functions (`trim`, `toLower`, `splitOn`,
`startsWith`) use position-based well-founded recursion, so they are
re-implemented here structurally over `List Char`; the claims only involve
ASCII text, where these agree with the Python operations they model. -/

/-- Index of the last occurrence of `c` in `cs`, if any
(Python `str.rfind`). -/
def lastIndexOf (c : Char) : List Char → Option Nat
  | [] => none
  | x :: xs =>
    match lastIndexOf c xs with
    | some i => some (i + 1)
    | none => if x = c then some 0 else none

/-- ASCII lower-casing of one character (Python `str.lower`,
restricted to ASCII). -/
def lowerChar (c : Char) : Char :=
  if 'A' ≤ c ∧ c ≤ 'Z' then Char.ofNat (c.toNat + 32) else c

/-- Python `s.lower()` (ASCII). -/
def strToLower (s : String) : String :=
  String.mk (s.toList.map lowerChar)

/-- The characters Python `str.strip()` removes. -/
def isSpaceChar (c : Char) : Bool :=
  c = ' ' ∨ c = '\t' ∨ c = '\n' ∨ c = '\r' ∨ c = '\x0b' ∨ c = '\x0c'

/-- Python `s.strip()`: drop leading and trailing whitespace. -/
def strStrip (s : String) : String :=
  String.mk (((s.toList.dropWhile isSpaceChar).reverse.dropWhile isSpaceChar).reverse)

/-- Test `hasPrefixAt needle hay`: does `needle` match at the head of `hay`? -/
def hasPrefixAt : List Char → List Char → Bool
  | [], _ => true
  | _ :: _, [] => false
  | a :: as, b :: bs => a = b && hasPrefixAt as bs

/-- Python `s.startswith(pre)`. -/
def strStarts (s pre : String) : Bool :=
  hasPrefixAt pre.toList s.toList

/-- Substring occurrence test over char lists. -/
def subList (needle : List Char) : List Char → Bool
  | [] => hasPrefixAt needle []
  | b :: bs => hasPrefixAt needle (b :: bs) || subList needle bs

/-- Python `needle in hay` for strings. -/
def strHasSub (hay needle : String) : Bool :=
  subList needle.toList hay.toList

/-- Python `abs` on rationals. -/
def qAbs (x : ℚ) : ℚ :=
  if x < 0 then -x else x

/-! ## Path handling (`pathlib.Path(...).suffix` and `str.lower`) -/

/-- Split a char list at every `/`. -/
def splitOnSlash : List Char → List (List Char)
  | [] => [[]]
  | c :: cs =>
    if c = '/' then [] :: splitOnSlash cs
    else
      match splitOnSlash cs with
      | [] => [[c]]
      | h :: t => (c :: h) :: t

/-- Final path component (`PurePath.name` for plain POSIX-style file
paths without a trailing slash). -/
def pathName (p : String) : String :=
  String.mk ((splitOnSlash p.toList).getLastD [])

/-- Python `PurePath.suffix`: the extension of the final component including the
dot; empty when the name has no interior dot (a leading dot or a trailing
dot yields no suffix, matching CPython
`if 0 < i < len(name) - 1: return name[i:]`). -/
def pathSuffix (p : String) : String :=
  let name := pathName p
  match lastIndexOf '.' name.toList with
  | some i =>
    if 0 < i ∧ i < name.length - 1 then String.mk (name.toList.drop i) else ""
  | none => ""

/-! ## Python dict as insertion-ordered association list -/

/-- Python dict assignment `d[k] = v`: overwrite in place when the key
exists, else append. -/
def dictInsert {α : Type} (k : String) (v : α) : List (String × α) → List (String × α)
  | [] => [(k, v)]
  | (k1, v1) :: rest =>
    if k1 = k then (k, v) :: rest else (k1, v1) :: dictInsert k v rest

/-- Python dict lookup `d[k]` / `k in d`. -/
def dictLookup {α : Type} (k : String) : List (String × α) → Option α
  | [] => none
  | (k1, v1) :: rest => if k1 = k then some v1 else dictLookup k rest

/-- Python `d.keys()`. -/
def dictKeys {α : Type} (d : List (String × α)) : List String :=
  d.map Prod.fst

/-! ## Python exceptions -/

/-- An exception value.  `underlying` is an error raised by the external
document-parsing layer (python-docx / pdfplumber / the filesystem);
`wrapped` is a fresh generic `Exception(msg)` raised by code in
`converter.py` itself (the `raise Exception(f"...: {str(e)}")` pattern). -/
inductive PyErr : Type where
  | underlying (msg : String)
  | wrapped (msg : String)
deriving DecidableEq, Repr

/-- Python `str(e)`. -/
def PyErr.message : PyErr → String
  | .underlying m => m
  | .wrapped m => m

/-- Whether the exception is a fresh wrapper raised by reader code
(the embedding's stand-in for the spec's `ReadFailure`/`WriteFailure`). -/
def PyErr.isWrapped : PyErr → Bool
  | .underlying _ => false
  | .wrapped _ => true

/-! ## DocxReader (`converter.py` lines 48–95) -/

/-- A DOCX run: text plus bold/italic/underline flags
(python-docx tri-state flags collapse to their truthiness). -/
structure Run where
  text : String
  bold : Bool
  italic : Bool
  underline : Bool
deriving DecidableEq, Repr

/-- Source `DocxReader._process_run`: conditional wraps applied in the fixed
order bold, italic, underline, each wrapping the current string. -/
def processRun (r : Run) : String :=
  let t := r.text
  let t := if r.bold then "**" ++ t ++ "**" else t
  let t := if r.italic then "*" ++ t ++ "*" else t
  let t := if r.underline then "__" ++ t ++ "__" else t
  t

/-- A DOCX paragraph: style name plus ordered runs. -/
structure Paragraph where
  styleName : String
  runs : List Run
deriving DecidableEq, Repr

/-- python-docx `paragraph.text`: concatenation of the run texts. -/
def paragraphText (p : Paragraph) : String :=
  String.join (p.runs.map Run.text)

/-- Python `'#' * n`. -/
def hashString (n : Nat) : String :=
  String.mk (List.replicate n '#')

/-- Numeric value of a digit character (`int(c)` for `c.isdigit()`). -/
def charDigit (c : Char) : Nat :=
  c.toNat - '0'.toNat

/-- Source `DocxReader._process_paragraph`.  The Python control flow
`if style.startswith('heading'): level = style[-1]; if level.isdigit():
return ...` falls through to the list/default cases when the heading
style's last character is not a digit; `headingDigit` captures exactly
when the heading branch returns. -/
def processParagraph (p : Paragraph) : String :=
  if strStrip (paragraphText p) = "" then "\n"
  else
    let style := strToLower p.styleName
    let content := String.join (p.runs.map processRun)
    let headingDigit : Option Char :=
      if strStarts style "heading" then
        match style.toList.getLast? with
        | some c => if c.isDigit then some c else none
        | none => none
      else none
    match headingDigit with
    | some c => hashString (charDigit c) ++ " " ++ content ++ "\n\n"
    | none =>
      if strStarts style "list" then "* " ++ content ++ "\n"
      else content ++ "\n\n"

/-- Body of `DocxReader.read` after a successful `docx.Document(...)`:
concatenate the per-paragraph outputs and strip the whole result. -/
def docxContent (paras : List Paragraph) : String :=
  strStrip (String.join (paras.map processParagraph))

/-- Source `DocxReader.read`: the `try`/`except` wraps any error from opening or
iterating the document into a fresh `Exception` whose message embeds the
cause. -/
def docxReaderRead (opened : Except PyErr (List Paragraph)) : Except PyErr String :=
  match opened with
  | .error e => .error (.wrapped ("Error reading DOCX file: " ++ e.message))
  | .ok paras => .ok (docxContent paras)

/-! ## PdfReader (`converter.py` lines 98–229) -/

/-- A character as exposed by `page.chars`: only its (possibly missing)
font size matters to the font survey. -/
structure PdfChar where
  size : Option ℚ
deriving DecidableEq, Repr

/-- A word as returned by `page.extract_words(...)` with the requested
extra attributes.  `strokingColor` is `None` or an RGB triple. -/
structure PdfWord where
  text : String
  size : ℚ
  fontname : String
  strokingColor : Option (ℚ × ℚ × ℚ)
  x0 : ℚ
  x1 : ℚ
  top : ℚ
  bottom : ℚ
deriving DecidableEq, Repr

/-- A PDF page: the characters seen by the font survey and the word list
seen by extraction. -/
structure PdfPage where
  chars : List PdfChar
  words : List PdfWord
deriving DecidableEq, Repr

/-- The `TextElement` dataclass. -/
structure TextElement where
  text : String
  fontSize : ℚ := 0
  fontName : String := ""
  bold : Bool := false
  italic : Bool := false
  isHeader : Bool := false
  top : ℚ := 0
  left : ℚ := 0
  width : ℚ := 0
  height : ℚ := 0
deriving DecidableEq, Repr

/-- The marker `TextElement('\n', 0)`: the line-break / page-break marker. -/
def breakElement : TextElement :=
  { text := "\n", fontSize := 0 }

/-- The per-instance state `_analyze_font_sizes` leaves on the reader:
`font_sizes` is the distinct observed sizes sorted descending,
`header_sizes` its first three entries (Python keeps them in a `set`;
only membership is used, so a list suffices). -/
structure FontState where
  fontSizes : List ℚ
  headerSizes : List ℚ
deriving DecidableEq, Repr

/-- Every font size observed on any character that has one (the keys of
the `sizes` histogram, whose counts are never used). -/
def observedSizes (pages : List PdfPage) : List ℚ :=
  (pages.flatMap PdfPage.chars).filterMap PdfChar.size

/-- Insert into a descending-sorted list (one step of
`sorted(..., reverse=True)`). -/
def insertDesc (x : ℚ) : List ℚ → List ℚ
  | [] => [x]
  | y :: ys => if y ≤ x then x :: y :: ys else y :: insertDesc x ys

/-- Sort a list descending by insertion. -/
def sortDesc (l : List ℚ) : List ℚ :=
  l.foldr insertDesc []

/-- Source `PdfReader._analyze_font_sizes`: distinct sizes sorted descending;
the top three are the header-size set. -/
def analyzeFontSizes (pages : List PdfPage) : FontState :=
  let uniqueSizes := sortDesc (observedSizes pages).dedup
  { fontSizes := uniqueSizes, headerSizes := uniqueSizes.take 3 }

/-- Python `list.index`: index of the first occurrence (total here; it is
only ever applied to members). -/
def idxOf (s : ℚ) : List ℚ → Nat
  | [] => 0
  | x :: xs => if x = s then 0 else idxOf s xs + 1

/-- Source `PdfReader._get_header_level`. -/
def getHeaderLevel (st : FontState) (fontSize : ℚ) : Nat :=
  if fontSize ∈ st.headerSizes then idxOf fontSize st.fontSizes + 1 else 0

/-- Construction of the `TextElement` for one extracted word, including
the header classification (`element.is_header = size in header_sizes`).
Bold is a `"Bold"` fontname substring or a pure-black stroking color;
italic is an `"Italic"` fontname substring. -/
def mkElement (st : FontState) (w : PdfWord) : TextElement :=
  { text := w.text
    fontSize := w.size
    fontName := w.fontname
    bold := strHasSub w.fontname "Bold" || w.strokingColor = some (0, 0, 0)
    italic := strHasSub w.fontname "Italic"
    isHeader := w.size ∈ st.headerSizes
    top := w.top
    left := w.x0
    width := w.x1 - w.x0
    height := w.bottom - w.top }

/-- Loop state of `_extract_text_elements`: emitted elements, the current
line's reference top (`current_line_y`), and the pending line. -/
structure ExtractState where
  elements : List TextElement
  currentLineY : Option ℚ
  currentLine : List TextElement
deriving DecidableEq, Repr

/-- One iteration of the word loop in `_extract_text_elements`: set the
reference on the first word, flush the pending line (with a break marker)
when the vertical offset strictly exceeds half the word's height, then
append the word's element to the pending line. -/
def lineStep (st : FontState) (acc : ExtractState) (w : PdfWord) : ExtractState :=
  let e := mkElement st w
  let y := acc.currentLineY.getD e.top
  if qAbs (e.top - y) > e.height * (1 / 2) then
    { elements :=
        if acc.currentLine = [] then acc.elements
        else acc.elements ++ acc.currentLine ++ [breakElement]
      currentLineY := some e.top
      currentLine := [e] }
  else
    { elements := acc.elements
      currentLineY := some y
      currentLine := acc.currentLine ++ [e] }

/-- Source `PdfReader._extract_text_elements` on one page: run the word loop,
then append the remaining pending line. -/
def extractTextElements (st : FontState) (page : PdfPage) : List TextElement :=
  let fin := page.words.foldl (lineStep st) ⟨[], none, []⟩
  fin.elements ++ fin.currentLine

/-- Loop state of `_elements_to_markdown`: completed lines and the
current line's formatted fragments. -/
structure EmitState where
  lines : List String
  current : List String
deriving DecidableEq, Repr

/-- The non-header formatting branch of `_elements_to_markdown`. -/
def inlineWrap (e : TextElement) : String :=
  if e.bold && e.italic then "***" ++ e.text ++ "***"
  else if e.bold then "**" ++ e.text ++ "**"
  else if e.italic then "*" ++ e.text ++ "*"
  else e.text

/-- Formatting of one element: header prefix when `is_header`, else the
bold/italic wrap. -/
def formatElement (st : FontState) (e : TextElement) : String :=
  if e.isHeader then hashString (getHeaderLevel st e.fontSize) ++ " " ++ e.text
  else inlineWrap e

/-- One iteration of the element loop in `_elements_to_markdown`: a break
marker joins the pending fragments with no separator and appends the
joined line — untrimmed — exactly when its strip is non-empty; any other
element appends its formatted text to the pending line. -/
def emitStep (st : FontState) (acc : EmitState) (e : TextElement) : EmitState :=
  if e.text = "\n" then
    if acc.current = [] then acc
    else
      { lines :=
          if strStrip (String.join acc.current) = "" then acc.lines
          else acc.lines ++ [String.join acc.current]
        current := [] }
  else
    { lines := acc.lines, current := acc.current ++ [formatElement st e] }

/-- Source `PdfReader._elements_to_markdown`: fold the element loop, flush any
remaining line the same way, and join the completed lines with a blank
line between them. -/
def elementsToMarkdown (st : FontState) (elems : List TextElement) : String :=
  let fin := elems.foldl (emitStep st) ⟨[], []⟩
  let lines :=
    if fin.current = [] then fin.lines
    else
      if strStrip (String.join fin.current) = "" then fin.lines
      else fin.lines ++ [String.join fin.current]
  String.intercalate "\n\n" lines

/-- The page loop of `PdfReader.read`: per-page element lists with a
page-break marker after every page except the last
(`page.page_number < len(pdf.pages)`). -/
def joinPagesWithBreak : List (List TextElement) → List TextElement
  | [] => []
  | [p] => p
  | p :: ps => p ++ [breakElement] ++ joinPagesWithBreak ps

/-- Body of `PdfReader.read` after a successful `pdfplumber.open`: font
survey, per-page extraction with page breaks, Markdown emission. -/
def pdfReadDoc (pages : List PdfPage) : String :=
  let st := analyzeFontSizes pages
  elementsToMarkdown st (joinPagesWithBreak (pages.map (extractTextElements st)))

/-- Source `PdfReader.read`: there is no `try`/`except`, so an error from the
parsing layer propagates to the caller unchanged. -/
def pdfReaderRead (opened : Except PyErr (List PdfPage)) : Except PyErr String :=
  match opened with
  | .error e => .error e
  | .ok pages => .ok (pdfReadDoc pages)

/-! ## MarkdownWriter and DocumentConverter (`converter.py` lines 232–283) -/

/-- The registry values of `self.readers`: the two built-in reader
classes plus arbitrary registered ones (the code stores classes and
instantiates them fresh on each `convert`). -/
inductive ReaderKind : Type where
  | docx
  | pdf
  | custom (name : String)
deriving DecidableEq, Repr

/-- The registry values of `self.writers`. -/
inductive WriterKind : Type where
  | markdown
  | custom (name : String)
deriving DecidableEq, Repr

/-- Class `DocumentConverter`: the two extension-keyed registries. -/
structure DocumentConverter where
  readers : List (String × ReaderKind)
  writers : List (String × WriterKind)
deriving DecidableEq, Repr

/-- Source `DocumentConverter.__init__`: the default registry entries. -/
def initConverter : DocumentConverter :=
  { readers := [(".docx", ReaderKind.docx), (".pdf", ReaderKind.pdf)]
    writers := [(".md", WriterKind.markdown)] }

/-- Source `register_reader`: plain dict assignment with the given extension,
no normalization. -/
def registerReader (c : DocumentConverter) (extension : String) (r : ReaderKind) :
    DocumentConverter :=
  { c with readers := dictInsert extension r c.readers }

/-- Source `register_writer`: plain dict assignment with the given extension,
no normalization. -/
def registerWriter (c : DocumentConverter) (extension : String) (w : WriterKind) :
    DocumentConverter :=
  { c with writers := dictInsert extension w c.writers }

/-- The external world a `convert` call touches: what opening each input
path yields for each built-in reader, and what a registered custom
reader's `read` returns. -/
structure World where
  docxFiles : String → Except PyErr (List Paragraph)
  pdfFiles : String → Except PyErr (List PdfPage)
  customRead : String → String → Except PyErr String

/-- Behaviour of `reader.read(input_path)` for a freshly constructed
instance of the registered reader class. -/
def runReader (w : World) (r : ReaderKind) (path : String) : Except PyErr String :=
  match r with
  | .docx => docxReaderRead (w.docxFiles path)
  | .pdf => pdfReaderRead (w.pdfFiles path)
  | .custom n => w.customRead n path

/-- Errors observable from `convert`.  The first two are the
`ValueError("Unsupported input format: ...")` and
`ValueError("Unsupported output format: ...")` raises; `readError`
propagates whatever the reader raised. -/
inductive ConvertError : Type where
  | unsupportedInput (ext : String)
  | unsupportedOutput (ext : String)
  | readError (e : PyErr)
deriving DecidableEq, Repr

/-- The I/O a `convert` call performs, in order: opening/reading the
input file, then creating/truncating and writing the output file. -/
inductive IOEvent : Type where
  | readAttempt (path : String)
  | writeAttempt (path : String) (content : String)
deriving DecidableEq, Repr

/-- Whether an event touches the output side. -/
def isWriteEvent : IOEvent → Bool
  | .readAttempt _ => false
  | .writeAttempt _ _ => true

/-- Source `DocumentConverter.convert`: lower-cased suffix lookup for both
paths (input first), then `reader.read` followed by `writer.write`.
The returned trace lists the I/O performed before the call finished. -/
def convert (c : DocumentConverter) (w : World) (inputPath outputPath : String) :
    List IOEvent × Except ConvertError Unit :=
  let inputExt := strToLower (pathSuffix inputPath)
  let outputExt := strToLower (pathSuffix outputPath)
  match dictLookup inputExt c.readers with
  | none => ([], .error (.unsupportedInput inputExt))
  | some r =>
    match dictLookup outputExt c.writers with
    | none => ([], .error (.unsupportedOutput outputExt))
    | some _wr =>
      match runReader w r inputPath with
      | .error e => ([.readAttempt inputPath], .error (.readError e))
      | .ok content =>
        ([.readAttempt inputPath, .writeAttempt outputPath content], .ok ())

/-! ## Spec-side definitions (for refinement-style claims) -/

/-- The spec's per-run wrap: `wrapIf b l r s` wraps `s` in `l`/`r` when
the flag `b` is set. -/
def wrapIf (b : Bool) (l r s : String) : String :=
  if b then l ++ s ++ r else s

/-- The spec's registry-key normal form: lower-cased and dot-prefixed. -/
def isNormalizedKey (k : String) : Bool :=
  k = strToLower k && strStarts k "."

/-- The spec's registry invariant: every reader and writer key is
normalized. -/
def registryNormalized (c : DocumentConverter) : Bool :=
  (dictKeys c.readers).all isNormalizedKey && (dictKeys c.writers).all isNormalizedKey

/-- The completed-line list after the final flush of
`_elements_to_markdown` (the remaining line is appended under the same
non-empty-after-strip test as a break marker would apply). -/
def finalizeLines (s : EmitState) : List String :=
  s.lines ++
    if s.current ≠ [] ∧ strStrip (String.join s.current) ≠ "" then [String.join s.current]
    else []

/-! ## Concrete instances used by the witnesses -/

deriving instance DecidableEq for Except

/-- A world in which every document open fails with an I/O error. -/
def stubWorld : World :=
  { docxFiles := fun _ => Except.error (PyErr.underlying "io")
    pdfFiles := fun _ => Except.error (PyErr.underlying "io")
    customRead := fun _ _ => Except.error (PyErr.underlying "io") }

/-- One page whose characters carry the sizes 12, 10, 8, 8, 6 and one
size-less character. -/
def demoPages : List PdfPage :=
  [{ chars := [⟨some 12⟩, ⟨some 10⟩, ⟨some 8⟩, ⟨some 8⟩, ⟨some 6⟩, ⟨none⟩], words := [] }]

/-- A word whose font size 6 ranks below the top three distinct sizes of
`demoPages`. -/
def demoWord : PdfWord :=
  { text := "w", size := 6, fontname := "F", strokingColor := none
    x0 := 0, x1 := 1, top := 0, bottom := 10 }

/-- A line state with reference top 100 and one pending element. -/
def demoAcc : ExtractState :=
  { elements := [], currentLineY := some 100, currentLine := [{ text := "w" }] }

/-- Height-10 word whose top offset from reference 100 is exactly half
its height. -/
def wordAtBoundary : PdfWord :=
  { text := "v", size := 10, fontname := "F", strokingColor := none
    x0 := 0, x1 := 5, top := 105, bottom := 115 }

/-- Height-10 word whose top offset from reference 100 is 5.0001. -/
def wordPastBoundary : PdfWord :=
  { text := "v", size := 10, fontname := "F", strokingColor := none
    x0 := 0, x1 := 5, top := 105 + 1 / 10000, bottom := 115 + 1 / 10000 }

/-- An empty font survey (no sizes observed). -/
def emptySurvey : FontState :=
  { fontSizes := [], headerSizes := [] }

/-! ## Helper lemmas -/

theorem mem_insertDesc {x a : ℚ} {l : List ℚ} :
    x ∈ insertDesc a l ↔ x = a ∨ x ∈ l := by
  induction l with
  | nil => simp [insertDesc]
  | cons y ys ih =>
    by_cases h : y ≤ a
    · simp [insertDesc, h]
    · simp [insertDesc, h, ih]
      tauto

theorem nodup_insertDesc {a : ℚ} {l : List ℚ} (hl : l.Nodup) (ha : a ∉ l) :
    (insertDesc a l).Nodup := by
  induction l with
  | nil => simp [insertDesc]
  | cons y ys ih =>
    rw [List.nodup_cons] at hl
    have hay : a ∉ ys := fun h => ha (List.mem_cons_of_mem _ h)
    by_cases h : y ≤ a
    · rw [insertDesc, if_pos h, List.nodup_cons, List.nodup_cons]
      exact ⟨ha, hl⟩
    · rw [insertDesc, if_neg h, List.nodup_cons]
      refine ⟨?_, ih hl.2 hay⟩
      intro hmem
      rcases mem_insertDesc.mp hmem with h1 | h1
      · exact ha (h1 ▸ List.mem_cons_self y ys)
      · exact hl.1 h1

theorem sorted_insertDesc {a : ℚ} {l : List ℚ} (hl : l.Sorted (· ≥ ·)) :
    (insertDesc a l).Sorted (· ≥ ·) := by
  induction l with
  | nil => simp [insertDesc]
  | cons y ys ih =>
    rw [List.sorted_cons] at hl
    by_cases h : y ≤ a
    · rw [insertDesc, if_pos h, List.sorted_cons]
      refine ⟨?_, List.sorted_cons.mpr hl⟩
      intro b hb
      rcases List.mem_cons.mp hb with rfl | hb
      · exact h
      · exact le_trans (hl.1 b hb) h
    · rw [insertDesc, if_neg h, List.sorted_cons]
      refine ⟨?_, ih hl.2⟩
      intro b hb
      rcases mem_insertDesc.mp hb with rfl | hb
      · exact le_of_lt (lt_of_not_le h)
      · exact hl.1 b hb

theorem mem_sortDesc {x : ℚ} {l : List ℚ} : x ∈ sortDesc l ↔ x ∈ l := by
  induction l with
  | nil => simp [sortDesc]
  | cons y ys ih =>
    show x ∈ insertDesc y (sortDesc ys) ↔ _
    rw [mem_insertDesc, ih]
    simp

theorem nodup_sortDesc {l : List ℚ} (h : l.Nodup) : (sortDesc l).Nodup := by
  induction l with
  | nil => simp [sortDesc]
  | cons y ys ih =>
    rw [List.nodup_cons] at h
    exact nodup_insertDesc (ih h.2) (fun hm => h.1 (mem_sortDesc.mp hm))

theorem sorted_sortDesc (l : List ℚ) : (sortDesc l).Sorted (· ≥ ·) := by
  induction l with
  | nil => simp [sortDesc]
  | cons y ys ih => exact sorted_insertDesc ih

theorem idxOf_cons_self {m : ℚ} {rest : List ℚ} : idxOf m (m :: rest) = 0 := by
  simp [idxOf]

theorem idxOf_lt_of_mem_take {s : ℚ} {l : List ℚ} {n : Nat}
    (h : s ∈ l.take n) : idxOf s l < n := by
  induction l generalizing n with
  | nil => simp at h
  | cons x xs ih =>
    cases n with
    | zero => simp at h
    | succ k =>
      rw [List.take_succ_cons, List.mem_cons] at h
      by_cases hx : x = s
      · simp [idxOf, hx]
      · have hs : s ∈ xs.take k := by
          rcases h with h | h
          · exact absurd h.symm hx
          · exact h
        have := ih hs
        simp [idxOf, hx]
        omega

theorem dictLookup_insert_self {α : Type} (k : String) (v : α) (d : List (String × α)) :
    dictLookup k (dictInsert k v d) = some v := by
  induction d with
  | nil => simp [dictInsert, dictLookup]
  | cons p rest ih =>
    obtain ⟨k1, v1⟩ := p
    by_cases h : k1 = k
    · simp [dictInsert, dictLookup, h]
    · simp [dictInsert, dictLookup, h, ih]

theorem dictLookup_insert_ne {α : Type} (k k2 : String) (v : α) (d : List (String × α))
    (h : k2 ≠ k) : dictLookup k2 (dictInsert k v d) = dictLookup k2 d := by
  have hk : ¬k = k2 := fun hh => h hh.symm
  induction d with
  | nil => simp [dictInsert, dictLookup, hk]
  | cons p rest ih =>
    obtain ⟨k1, v1⟩ := p
    by_cases h1 : k1 = k
    · subst h1
      simp [dictInsert, dictLookup, hk]
    · simp [dictInsert, dictLookup, h1, ih]

theorem all_dictInsert {α : Type} (P : String → Bool) (k : String) (v : α)
    (d : List (String × α)) (hd : (dictKeys d).all P = true) (hk : P k = true) :
    (dictKeys (dictInsert k v d)).all P = true := by
  induction d with
  | nil => simp [dictInsert, dictKeys, hk]
  | cons p rest ih =>
    obtain ⟨k1, v1⟩ := p
    simp [dictKeys] at hd
    by_cases h : k1 = k
    · simp [dictInsert, dictKeys, h, hk]
      exact fun x hx => hd.2 x hx
    · simp [dictInsert, dictKeys, h, hd.1]
      have := ih (by simp [dictKeys]; exact hd.2)
      simpa [dictKeys] using this

/-! ## Claim theorems -/

/-- C1: `convert` raises `UnsupportedInputFormat` when the lower-cased
extension of the input path is not a registered reader key, raises
`UnsupportedOutputFormat` when (the input extension is registered and)
the lower-cased extension of the output path is not a registered writer
key, and in either case performs no I/O at all: the event trace is
empty, so no file is opened, read, or written. -/
theorem convert_unsupported_before_io (c : DocumentConverter) (w : World)
    (inputPath outputPath : String) (r : ReaderKind) :
    (dictLookup (strToLower (pathSuffix inputPath)) c.readers = none →
      convert c w inputPath outputPath =
        ([], Except.error (ConvertError.unsupportedInput (strToLower (pathSuffix inputPath))))) ∧
    (dictLookup (strToLower (pathSuffix inputPath)) c.readers = some r →
      dictLookup (strToLower (pathSuffix outputPath)) c.writers = none →
      convert c w inputPath outputPath =
        ([], Except.error (ConvertError.unsupportedOutput (strToLower (pathSuffix outputPath))))) := by
  constructor
  · intro h
    simp [convert, h]
  · intro h1 h2
    simp [convert, h1, h2]

/-- C1 witness: with the default registries, input extension `.txt` is
rejected as unsupported input and, for a `.docx` input, output extension
`.pdf` is rejected as unsupported output; the trace is empty both times. -/
theorem convert_unsupported_before_io_witness :
    dictLookup (strToLower (pathSuffix "doc.txt")) initConverter.readers = none ∧
    convert initConverter stubWorld "doc.txt" "out.md" =
      ([], Except.error (ConvertError.unsupportedInput ".txt")) ∧
    convert initConverter stubWorld "doc.docx" "out.pdf" =
      ([], Except.error (ConvertError.unsupportedOutput ".pdf")) := by
  refine ⟨by decide, ?_, ?_⟩
  · exact (convert_unsupported_before_io initConverter stubWorld "doc.txt" "out.md"
      ReaderKind.docx).1 (by decide)
  · exact (convert_unsupported_before_io initConverter stubWorld "doc.docx" "out.pdf"
      ReaderKind.docx).2 (by decide) (by decide)

/-- C2: the per-run output applies exactly three conditional wraps in the
fixed order bold (`**…**`), then italic (`*…*`), then underline
(`__…__`), each wrapping the current string; a run with text `"X"` and
all three flags set produces exactly `"__***X***__"`. -/
theorem processRun_wrap_order (r : Run) :
    processRun r =
      wrapIf r.underline "__" "__" (wrapIf r.italic "*" "*" (wrapIf r.bold "**" "**" r.text)) ∧
    processRun ⟨"X", true, true, true⟩ = "__***X***__" := by
  refine ⟨?_, by decide⟩
  obtain ⟨t, b, i, u⟩ := r
  cases b <;> cases i <;> cases u <;> rfl

/-- C3: a non-empty paragraph whose lower-cased style name starts with
`"heading"` and ends in a digit `c` produces `'#' * digit(c)`, a space,
the concatenated per-run outputs, and `"\n\n"`. -/
theorem processParagraph_heading_digit (p : Paragraph) (c : Char)
    (h1 : strStrip (paragraphText p) ≠ "")
    (h2 : strStarts (strToLower p.styleName) "heading" = true)
    (h3 : (strToLower p.styleName).toList.getLast? = some c)
    (h4 : c.isDigit = true) :
    processParagraph p =
      hashString (charDigit c) ++ " " ++ String.join (p.runs.map processRun) ++ "\n\n" := by
  have h3d : (strToLower p.styleName).data.getLast? = some c := h3
  simp [processParagraph, h1, h2, h3d, h4]

/-- C3 witness: the paragraph with style `"Heading 2"` and single run
`"Title"` satisfies the hypotheses and produces `"## Title\n\n"`
(the line `"## Title"` followed by a blank line). -/
theorem processParagraph_heading_digit_witness :
    strStrip (paragraphText ⟨"Heading 2", [⟨"Title", false, false, false⟩]⟩) ≠ "" ∧
    processParagraph ⟨"Heading 2", [⟨"Title", false, false, false⟩]⟩ = "## Title\n\n" := by
  refine ⟨by decide, ?_⟩
  rw [processParagraph_heading_digit ⟨"Heading 2", [⟨"Title", false, false, false⟩]⟩ '2'
    (by decide) (by decide) (by decide) (by decide)]
  decide

/-- C7 counterexample: `PdfReader.read` has no `try`/`except`, so an
error raised by the parsing layer surfaces to the caller unchanged —
still the underlying exception, not a fresh wrapping `ReadFailure`. -/
theorem pdfReaderRead_propagates_unwrapped :
    pdfReaderRead (Except.error (PyErr.underlying "boom")) =
      Except.error (PyErr.underlying "boom") ∧
    (PyErr.underlying "boom").isWrapped = false := by
  exact ⟨rfl, rfl⟩

/-- C7 amended: when the underlying layer fails, `DocxReader.read` raises
a fresh wrapping exception whose message embeds the cause, while
`PdfReader.read` propagates the underlying error unchanged; in both
cases no (partial) text is returned. -/
theorem readers_error_behaviour (e : PyErr) :
    docxReaderRead (Except.error e) =
      Except.error (PyErr.wrapped ("Error reading DOCX file: " ++ e.message)) ∧
    pdfReaderRead (Except.error e) = Except.error e ∧
    (∀ s, docxReaderRead (Except.error e) ≠ Except.ok s) ∧
    (∀ s, pdfReaderRead (Except.error e) ≠ Except.ok s) := by
  refine ⟨rfl, rfl, ?_, ?_⟩ <;> intro s h <;> simp [docxReaderRead, pdfReaderRead] at h

/-- C7 amended witness: at the concrete underlying error `"io"`, the
DOCX reader raises the wrapping exception and the PDF reader re-raises
the underlying error itself. -/
theorem readers_error_behaviour_witness :
    docxReaderRead (Except.error (PyErr.underlying "io")) =
      Except.error (PyErr.wrapped "Error reading DOCX file: io") ∧
    pdfReaderRead (Except.error (PyErr.underlying "io")) =
      Except.error (PyErr.underlying "io") := by
  have h := readers_error_behaviour (PyErr.underlying "io")
  refine ⟨?_, h.2.1⟩
  rw [h.1]
  decide

/-- C9: conversion is deterministic — the embedded conversion pipeline is
a pure function (each `convert` call constructs fresh reader/writer
instances, so no state survives between runs), hence two runs on the
same input produce identical output. -/
theorem convert_deterministic (c : DocumentConverter) (w : World) (i o : String) :
    convert c w i o = convert c w i o ∧
    (∀ paras, docxContent paras = docxContent paras) ∧
    (∀ pages, pdfReadDoc pages = pdfReadDoc pages) :=
  ⟨rfl, fun _ => rfl, fun _ => rfl⟩

/-- C10: when the resolved reader's `read` raises, `convert` propagates
the error and the trace shows only the input-side read attempt — no
write event occurs, so the output file is neither created nor
truncated. -/
theorem convert_no_write_on_read_failure (c : DocumentConverter) (w : World)
    (inputPath outputPath : String) (r : ReaderKind) (wk : WriterKind) (e : PyErr)
    (h1 : dictLookup (strToLower (pathSuffix inputPath)) c.readers = some r)
    (h2 : dictLookup (strToLower (pathSuffix outputPath)) c.writers = some wk)
    (h3 : runReader w r inputPath = Except.error e) :
    convert c w inputPath outputPath =
      ([IOEvent.readAttempt inputPath], Except.error (ConvertError.readError e)) ∧
    (convert c w inputPath outputPath).1.filter isWriteEvent = [] := by
  have hc : convert c w inputPath outputPath =
      ([IOEvent.readAttempt inputPath], Except.error (ConvertError.readError e)) := by
    simp [convert, h1, h2, h3]
  refine ⟨hc, ?_⟩
  rw [hc]
  rfl

/-- C10 witness: in a world where opening the DOCX fails with an I/O
error, converting `in.docx` to `out.md` yields the wrapped read error
and a trace with no write event. -/
theorem convert_no_write_on_read_failure_witness :
    convert initConverter stubWorld "in.docx" "out.md" =
      ([IOEvent.readAttempt "in.docx"],
        Except.error (ConvertError.readError (PyErr.wrapped "Error reading DOCX file: io"))) ∧
    (convert initConverter stubWorld "in.docx" "out.md").1.filter isWriteEvent = [] := by
  exact convert_no_write_on_read_failure initConverter stubWorld "in.docx" "out.md"
    ReaderKind.docx WriterKind.markdown (PyErr.wrapped "Error reading DOCX file: io")
    (by decide) (by decide) (by decide)

/-- C8 counterexample: the initial registries satisfy the
normalized-key invariant, but `register_reader` performs no
normalization: registering the extension `".TXT"` (not lower-cased)
leaves the registry with a non-normalized key, so the invariant is not
preserved by every registration call. -/
theorem register_breaks_normalization :
    registryNormalized initConverter = true ∧
    registryNormalized (registerReader initConverter ".TXT" (ReaderKind.custom "t")) = false := by
  exact ⟨by decide, by decide⟩

/-- C8 amended: the initial default entries are normalized; registration
overwrites an existing key silently (the new value is found under the
key and all other keys are untouched); and the normalized-key invariant
is preserved by `registerReader`/`registerWriter` exactly when the key
being registered is itself normalized — the code does not normalize. -/
theorem registry_normalization_conditional (c : DocumentConverter) (k k2 : String)
    (r : ReaderKind) (wk : WriterKind)
    (hc : registryNormalized c = true) (hk : isNormalizedKey k = true) :
    registryNormalized (registerReader c k r) = true ∧
    registryNormalized (registerWriter c k wk) = true ∧
    dictLookup k (registerReader c k r).readers = some r ∧
    dictLookup k (registerWriter c k wk).writers = some wk ∧
    (k2 ≠ k → dictLookup k2 (registerReader c k r).readers = dictLookup k2 c.readers) ∧
    (k2 ≠ k → dictLookup k2 (registerWriter c k wk).writers = dictLookup k2 c.writers) := by
  rw [registryNormalized, Bool.and_eq_true] at hc
  refine ⟨?_, ?_, dictLookup_insert_self k r c.readers, dictLookup_insert_self k wk c.writers,
    fun h => dictLookup_insert_ne k k2 r c.readers h,
    fun h => dictLookup_insert_ne k k2 wk c.writers h⟩
  · rw [registryNormalized, Bool.and_eq_true]
    exact ⟨all_dictInsert isNormalizedKey k r c.readers hc.1 hk, hc.2⟩
  · rw [registryNormalized, Bool.and_eq_true]
    exact ⟨hc.1, all_dictInsert isNormalizedKey k wk c.writers hc.2 hk⟩

/-- C8 amended witness: registering the normalized key `".txt"` on the
default converter keeps the invariant, finds the new reader under
`".txt"`, and leaves the `".docx"` entry untouched. -/
theorem registry_normalization_conditional_witness :
    registryNormalized (registerReader initConverter ".txt" (ReaderKind.custom "t")) = true ∧
    dictLookup ".txt" (registerReader initConverter ".txt" (ReaderKind.custom "t")).readers =
      some (ReaderKind.custom "t") ∧
    dictLookup ".docx" (registerReader initConverter ".txt" (ReaderKind.custom "t")).readers =
      some ReaderKind.docx := by
  have h := registry_normalization_conditional initConverter ".txt" ".docx"
    (ReaderKind.custom "t") WriterKind.markdown (by decide) (by decide)
  exact ⟨h.1, h.2.2.1, by rw [h.2.2.2.2.1 (by decide)]; decide⟩

/-- C4: with at least one sized character (head size `m`), the header
level of a size in the header set is one plus its index in the
descending distinct-size list; the largest observed size `m` maps to
level 1; header levels are confined to 1..3; and a word whose size is
outside the top three distinct sizes is never classified or rendered as
a header (its element takes the non-header formatting branch),
regardless of how often that size occurs. -/
theorem pdf_header_level_ranking (pages : List PdfPage) (s m : ℚ) (w : PdfWord)
    (hm : (analyzeFontSizes pages).fontSizes.head? = some m) :
    getHeaderLevel (analyzeFontSizes pages) m = 1 ∧
    (s ∈ observedSizes pages → s ≤ m) ∧
    (s ∈ (analyzeFontSizes pages).headerSizes →
      getHeaderLevel (analyzeFontSizes pages) s =
        idxOf s (analyzeFontSizes pages).fontSizes + 1 ∧
      1 ≤ getHeaderLevel (analyzeFontSizes pages) s ∧
      getHeaderLevel (analyzeFontSizes pages) s ≤ 3) ∧
    (w.size ∉ (analyzeFontSizes pages).headerSizes →
      (mkElement (analyzeFontSizes pages) w).isHeader = false ∧
      formatElement (analyzeFontSizes pages) (mkElement (analyzeFontSizes pages) w) =
        inlineWrap (mkElement (analyzeFontSizes pages) w)) := by
  have hfs : (analyzeFontSizes pages).fontSizes = sortDesc (observedSizes pages).dedup := rfl
  have hhs : (analyzeFontSizes pages).headerSizes =
      (sortDesc (observedSizes pages).dedup).take 3 := rfl
  obtain ⟨rest, hcons⟩ : ∃ rest, sortDesc (observedSizes pages).dedup = m :: rest := by
    rw [hfs] at hm
    cases hu : sortDesc (observedSizes pages).dedup with
    | nil => rw [hu] at hm; simp at hm
    | cons a l =>
      rw [hu] at hm
      simp at hm
      exact ⟨l, by rw [hm]⟩
  have hsorted : (sortDesc (observedSizes pages).dedup).Sorted (· ≥ ·) := sorted_sortDesc _
  refine ⟨?_, ?_, ?_, ?_⟩
  · simp only [getHeaderLevel, hhs, hfs, hcons]
    rw [if_pos (show m ∈ (m :: rest).take 3 from List.mem_cons_self m _), idxOf_cons_self]
  · intro hs
    have hmem : s ∈ m :: rest := by
      rw [← hcons, mem_sortDesc]
      exact List.mem_dedup.mpr hs
    rcases List.mem_cons.mp hmem with rfl | hr
    · exact le_refl s
    · exact (List.sorted_cons.mp (hcons ▸ hsorted)).1 s hr
  · intro hs
    have hs3 : s ∈ (sortDesc (observedSizes pages).dedup).take 3 := hhs ▸ hs
    have hidx : idxOf s (sortDesc (observedSizes pages).dedup) < 3 := idxOf_lt_of_mem_take hs3
    have hif : getHeaderLevel (analyzeFontSizes pages) s =
        idxOf s (analyzeFontSizes pages).fontSizes + 1 := by
      simp only [getHeaderLevel]
      rw [if_pos hs]
    rw [hif, hfs]
    omega
  · intro hw
    have hih : (mkElement (analyzeFontSizes pages) w).isHeader = false := by
      simp [mkElement, hw]
    exact ⟨hih, by simp [formatElement, hih]⟩

/-- C4 witness: on a document with distinct sizes 12 > 10 > 8 > 6, the
largest size 12 has level 1, size 8 has level 3, and a word of size 6
(outside the top three, although observed) is not classified as a
header and takes the non-header formatting branch. -/
theorem pdf_header_level_ranking_witness :
    (analyzeFontSizes demoPages).fontSizes.head? = some 12 ∧
    getHeaderLevel (analyzeFontSizes demoPages) 12 = 1 ∧
    getHeaderLevel (analyzeFontSizes demoPages) 8 =
      idxOf 8 (analyzeFontSizes demoPages).fontSizes + 1 ∧
    (mkElement (analyzeFontSizes demoPages) demoWord).isHeader = false ∧
    formatElement (analyzeFontSizes demoPages) (mkElement (analyzeFontSizes demoPages) demoWord) =
      inlineWrap (mkElement (analyzeFontSizes demoPages) demoWord) := by
  have h := pdf_header_level_ranking demoPages 8 12 demoWord (by decide)
  have h4 := h.2.2.2 (by decide)
  exact ⟨by decide, h.1, (h.2.2.1 (by decide)).1, h4.1, h4.2⟩

/-- C5: with a current reference top `y`, one step of the line-grouping
loop starts a new line exactly when the absolute vertical offset of the
word strictly exceeds half its height — on strict excess the pending
line is flushed (followed by a line-break marker if non-empty) and the
word's top becomes the new reference; at an offset less than or equal
to half the height (in particular exactly half) the word joins the
current line and the reference is unchanged. -/
theorem lineStep_half_height_boundary (st : FontState) (acc : ExtractState)
    (w : PdfWord) (y : ℚ) (hy : acc.currentLineY = some y) :
    (qAbs (w.top - y) > (w.bottom - w.top) * (1 / 2) →
      lineStep st acc w =
        { elements :=
            if acc.currentLine = [] then acc.elements
            else acc.elements ++ acc.currentLine ++ [breakElement]
          currentLineY := some w.top
          currentLine := [mkElement st w] }) ∧
    (qAbs (w.top - y) ≤ (w.bottom - w.top) * (1 / 2) →
      lineStep st acc w =
        { elements := acc.elements
          currentLineY := some y
          currentLine := acc.currentLine ++ [mkElement st w] }) := by
  have htop : (mkElement st w).top = w.top := rfl
  have hh : (mkElement st w).height = w.bottom - w.top := rfl
  constructor
  · intro h
    simp only [lineStep, hy, Option.getD_some, htop, hh]
    rw [if_pos h]
  · intro h
    simp only [lineStep, hy, Option.getD_some, htop, hh]
    rw [if_neg (not_lt.mpr h)]

/-- C5 witness: from reference top 100 with a pending element, a
height-10 word at top 105 (offset exactly half the height) joins the
current line and keeps the reference, while a height-10 word at top
105.0001 flushes the line with a break marker and resets the reference
to its own top. -/
theorem lineStep_half_height_boundary_witness :
    demoAcc.currentLineY = some 100 ∧
    lineStep emptySurvey demoAcc wordAtBoundary =
      { elements := demoAcc.elements
        currentLineY := some (100 : ℚ)
        currentLine := demoAcc.currentLine ++ [mkElement emptySurvey wordAtBoundary] } ∧
    lineStep emptySurvey demoAcc wordPastBoundary =
      { elements := demoAcc.elements ++ demoAcc.currentLine ++ [breakElement]
        currentLineY := some wordPastBoundary.top
        currentLine := [mkElement emptySurvey wordPastBoundary] } := by
  refine ⟨rfl, ?_, ?_⟩
  · exact (lineStep_half_height_boundary emptySurvey demoAcc wordAtBoundary 100 rfl).2
      (by norm_num [qAbs, wordAtBoundary])
  · have h := (lineStep_half_height_boundary emptySurvey demoAcc wordPastBoundary 100 rfl).1
      (by norm_num [qAbs, wordPastBoundary])
    rw [if_neg (show ¬demoAcc.currentLine = [] by decide)] at h
    exact h

/-- C6 counterexample: the emission loop appends the completed line
UNTRIMMED — a single-word line `" a "` is emitted as `" a "`, not as its
trimmed form `"a"` as the claim states (trimming is only the
non-emptiness test). -/
theorem emit_appends_untrimmed_line :
    elementsToMarkdown emptySurvey [{ text := " a " }, breakElement] = " a " ∧
    strStrip " a " = "a" ∧
    (" a " : String) ≠ "a" := by
  exact ⟨by decide, by decide, by decide⟩

/-- C6 amended: on a line-break marker the accumulated texts are
concatenated with no inserted separator and the UNTRIMMED concatenation
is appended as one completed line exactly when its trimmed form is
non-empty (whitespace-only lines are discarded entirely; trimming is
used only for that test); a non-marker element appends its formatted
text; and the output joins the completed lines — the final pending line
flushed under the same test — with a blank line between them. -/
theorem emitStep_line_assembly (st : FontState) (acc : EmitState) (e : TextElement)
    (elems : List TextElement) :
    (e.text = "\n" → acc.current ≠ [] →
      emitStep st acc e =
        { lines :=
            if strStrip (String.join acc.current) = "" then acc.lines
            else acc.lines ++ [String.join acc.current]
          current := [] }) ∧
    (e.text = "\n" → acc.current = [] → emitStep st acc e = acc) ∧
    (e.text ≠ "\n" →
      emitStep st acc e =
        { lines := acc.lines, current := acc.current ++ [formatElement st e] }) ∧
    elementsToMarkdown st elems =
      String.intercalate "\n\n" (finalizeLines (elems.foldl (emitStep st) ⟨[], []⟩)) := by
  refine ⟨?_, ?_, ?_, ?_⟩
  · intro he hne
    simp [emitStep, he, hne]
  · intro he hcur
    simp [emitStep, he, hcur]
  · intro he
    simp [emitStep, he]
  · simp only [elementsToMarkdown]
    by_cases h1 : (elems.foldl (emitStep st) ⟨[], []⟩).current = []
    · simp [finalizeLines, h1]
    · by_cases h2 : strStrip (String.join (elems.foldl (emitStep st) ⟨[], []⟩).current) = ""
      · simp [finalizeLines, h1, h2]
      · simp [finalizeLines, h1, h2]

/-- C6 amended witness: a break marker flushes `" a "` (non-empty after
trim) untrimmed, discards a whitespace-only line, is a no-op on an
empty accumulator; a plain element appends its formatted text; a
concrete element list produces the blank-line join of its finalized
lines. -/
theorem emitStep_line_assembly_witness :
    emitStep emptySurvey ⟨["L"], [" a "]⟩ breakElement = ⟨["L", " a "], []⟩ ∧
    emitStep emptySurvey ⟨["L"], ["  "]⟩ breakElement = ⟨["L"], []⟩ ∧
    emitStep emptySurvey ⟨["L"], []⟩ breakElement = ⟨["L"], []⟩ ∧
    emitStep emptySurvey ⟨["L"], []⟩ { text := "t" } = ⟨["L"], ["t"]⟩ ∧
    elementsToMarkdown emptySurvey [{ text := "x" }, breakElement, { text := "y" }] =
      String.intercalate "\n\n"
        (finalizeLines ([({ text := "x" } : TextElement), breakElement,
          ({ text := "y" } : TextElement)].foldl (emitStep emptySurvey) ⟨[], []⟩)) := by
  refine ⟨?_, ?_, ?_, ?_,
    (emitStep_line_assembly emptySurvey ⟨[], []⟩ breakElement
      [{ text := "x" }, breakElement, { text := "y" }]).2.2.2⟩
  · rw [(emitStep_line_assembly emptySurvey ⟨["L"], [" a "]⟩ breakElement []).1 rfl (by decide)]
    decide
  · rw [(emitStep_line_assembly emptySurvey ⟨["L"], ["  "]⟩ breakElement []).1 rfl (by decide)]
    decide
  · exact (emitStep_line_assembly emptySurvey ⟨["L"], []⟩ breakElement []).2.1 rfl rfl
  · rw [(emitStep_line_assembly emptySurvey ⟨["L"], []⟩ { text := "t" } []).2.2.1 (by decide)]
    decide

end Convertify
